import Mathlib

/-!
Verification of the ADGMaker generation engine (TypeScript sources under
`UI/src/core`): path encoding (`adg-maker.ts`), directory filtering and batch
processing (`sample-pack-processor.ts`).  JavaScript strings are modelled as
lists of UTF-16 code units (`List Nat`) where byte-level encoding matters and
as lists of characters (`List Char`) elsewhere; filesystem and template
collaborators are modelled explicitly where noted.
-/

set_option autoImplicit false

namespace ADG

/-! ## UTF-16 hex encoding (`ADGMaker.encodeUtf16Hex`) -/

/-- One hexadecimal digit, uppercase, for a value below 16
    (digit of `Buffer.toString('hex').toUpperCase()`). -/
def hexDigit (n : Nat) : Char :=
  if n < 10 then Char.ofNat (48 + n) else Char.ofNat (55 + n)

/-- The two uppercase hex digits of one byte. -/
def hexByte (b : Nat) : List Char :=
  [hexDigit (b / 16), hexDigit (b % 16)]

/-- The little-endian byte pair of one UTF-16 code unit
    (what `Buffer.from(s, 'utf16le')` stores for each unit). -/
def utf16leUnit (u : Nat) : List Nat :=
  [u % 256, (u / 256) % 256]

/-- Model of `ADGMaker.encodeUtf16Hex`: prepend the byte-order mark U+FEFF,
    encode the code-unit sequence as UTF-16LE bytes, and render the bytes as
    uppercase hex with no separators.  A JavaScript string is its list of
    UTF-16 code units. -/
def encodeUtf16Hex (filePath : List Nat) : String :=
  let withBom := 0xFEFF :: filePath
  let buffer := (withBom.map utf16leUnit).flatten
  String.mk ((buffer.map hexByte).flatten)

/-! ## Path hints (`ADGMaker.createPathHint`) -/

/-- Model of `String.prototype.split` with the single-character separator
    `path.sep` (the posix separator here). -/
def splitSep : List Char → List (List Char)
  | [] => [[]]
  | c :: rest =>
    match splitSep rest with
    | [] => []
    | s :: ss => if c = '/' then [] :: s :: ss else (c :: s) :: ss

/-- Model of `Array.prototype.slice(1, -1)`: elements from index 1 up to (and
    excluding) index `length - 1`. -/
def sliceOneNegOne {α : Type} (l : List α) : List α :=
  (l.take (l.length - 1)).drop 1

/-- One `RelativePathElement` fragment for one intermediate directory part. -/
def hintEl (part : List Char) : List Char :=
  ("<RelativePathElement Dir=\"").data ++ part ++ ("\" />").data

/-- The fragment list built by `ADGMaker.createPathHint` before joining. -/
def createPathHintEls (filePath : List Char) : List (List Char) :=
  (sliceOneNegOne (splitSep filePath)).map hintEl

/-- Model of `Array.prototype.join` with separator `"\n"`. -/
def joinNewline : List (List Char) → List Char
  | [] => []
  | [x] => x
  | x :: y :: rest => x ++ '\n' :: joinNewline (y :: rest)

/-- Model of `ADGMaker.createPathHint`: split the path on the separator, drop
    the first and last segments, format each remaining segment, join with
    newlines. -/
def createPathHint (filePath : List Char) : List Char :=
  joinNewline (createPathHintEls filePath)

/-! ## Directory filtering (`SamplePackProcessor.getSubdirsContainingValidSamples`) -/

/-- One entry returned by `fs.promises.readdir(dirPath, { withFileTypes: true })`:
    its name and whether `entry.isDirectory()` holds. -/
structure DirEntry where
  entryName : List Char
  isDir : Bool
deriving DecidableEq

/-- Contiguous-sublist test: does `hay` contain `needle`
    (model of `String.prototype.includes`)? -/
def hasSubList (needle : List Char) : List Char → Bool
  | [] => needle.isEmpty
  | c :: rest => needle.isPrefixOf (c :: rest) || hasSubList needle rest

/-- Model of `String.prototype.toLowerCase` restricted to ASCII letters (the
    only characters that can lowercase to the letters of the probe word
    `"loop"` or of a file extension). -/
def lowerAscii (l : List Char) : List Char := l.map Char.toLower

/-- The test `entry.name.toLowerCase().includes('loop')` from
    `getSubdirsContainingValidSamples`. -/
def containsLoop (nm : List Char) : Bool :=
  hasSubList (('l') :: ('o') :: ('o') :: ('p') :: []) (lowerAscii nm)

/-- Model of `path.join(dirPath, name)` for a clean directory path. -/
def joinPath (dir nm : List Char) : List Char := dir ++ '/' :: nm

/-- Model of `SamplePackProcessor.getSubdirsContainingValidSamples`: keep the
    directory entries, drop those whose lowercased name contains "loop"
    unless `includeLoops`, and return the joined paths in listing order. -/
def getSubdirsContainingValidSamples (dirPath : List Char) (entries : List DirEntry)
    (includeLoops : Bool) : List (List Char) :=
  (entries.filter (fun e => e.isDir && (includeLoops || !containsLoop e.entryName))).map
    (fun e => joinPath dirPath e.entryName)

/-! ## Instrument fragments (`ADGMaker.createInstrumentXml`) -/

/-- Model of the scan in posix `path.basename` (no extension argument): strip
    trailing separators, then take the final separator-free component. -/
def basenameL (p : List Char) : List Char :=
  let trimmed := p.reverse.dropWhile (fun c => c == '/')
  (trimmed.takeWhile (fun c => !(c == '/'))).reverse

/-- The scan of posix `path.dirname`: running right-to-left from index
    `length - 1` down to index `1`, return the index of the first separator
    seen after a non-separator.  The list argument is the reversed path and
    `i` is the original index of its head. -/
def dirEnd : List Char → Nat → Bool → Option Nat
  | [], _, _ => none
  | c :: rl, i, ms =>
    if i = 0 then none
    else if c = '/' then
      if ms then dirEnd rl (i - 1) ms else some i
    else dirEnd rl (i - 1) false

/-- Model of posix `path.dirname`. -/
def dirnameL (p : List Char) : List Char :=
  match p with
  | [] => ('.') :: []
  | c0 :: _ =>
    match dirEnd p.reverse (p.length - 1) true with
    | none => if c0 = '/' then ('/') :: [] else ('.') :: []
    | some e => if c0 = '/' ∧ e = 1 then ('/') :: ('/') :: [] else p.take e

/-- Case-insensitive suffix test: the model of matching the anchored
    case-insensitive regular expression built from the dotted extension in
    `createInstrumentXml`. -/
def endsWithCI (l suffix : List Char) : Bool :=
  (lowerAscii suffix).isSuffixOf (lowerAscii l)

/-- UTF-16 code units of one scalar value (surrogate pair above the BMP). -/
def charUtf16 (c : Char) : List Nat :=
  let n := c.toNat
  if n < 0x10000 then [n]
  else [0xD800 + (n - 0x10000) / 0x400, 0xDC00 + (n - 0x10000) % 0x400]

/-- UTF-16 code units of a character list. -/
def strUtf16 (l : List Char) : List Nat := (l.map charUtf16).flatten

/-- Modelled from the spec: the per-sample template `instrument_xml.tpl` is a
    fixed external asset that is not part of the sources here, so a rendered
    per-sample fragment is modelled as the record of the values bound into
    that template (display name, filename with extension, slot number,
    virtual path, path-hint fragments, binary-hex-encoded path). -/
structure InstrumentRender where
  path_hint_els : List Char
  name : List Char
  sample_file_name : List Char
  note_value : Int
  ableton_path : List Char
  data : List Char
deriving DecidableEq

/-- Model of `ADGMaker.createInstrumentXml`: strip the configured extension
    from the base name case-insensitively, rebuild the filename, compose the
    Ableton virtual path from `path.dirname`, and bind everything into the
    per-sample template. -/
def createInstrumentXml (ft : List Char) (filePath : List Char) (noteValue : Int) :
    InstrumentRender :=
  let dotExt := ('.') :: ft
  let baseName := basenameL filePath
  let nm := if endsWithCI baseName dotExt
            then baseName.take (baseName.length - dotExt.length)
            else baseName
  let fileName := nm ++ dotExt
  let dirPath := dirnameL filePath
  { path_hint_els := createPathHint filePath
    name := nm
    sample_file_name := fileName
    note_value := noteValue
    ableton_path := ("userfolder:").data ++ dirPath ++ ('/') :: ('#') :: fileName
    data := (encodeUtf16Hex (strUtf16 filePath)).data }

/-- Everything before the final separator of a path (the wording of the
    specification for the directory portion of the virtual path). -/
def beforeLastSep (p : List Char) : List Char :=
  ((p.reverse.dropWhile (fun c => !(c == '/'))).drop 1).reverse

/-! ## Batch processor (`SamplePackProcessor`) -/

/-- One event sent through the progress / created / error callbacks.  The two
    progress shapes correspond to the two call sites: per-sample progress
    carries `currentFile`, per-subdirectory progress carries `currentFolder`. -/
inductive Event where
  | progressFile (current : Nat) (total : Nat) (currentFile : List Char)
  | progressFolder (current : Nat) (total : Nat) (currentFolder : List Char)
  | created (nm : List Char) (path : List Char)
  | error (msg : List Char)
deriving DecidableEq

/-- The `adgs` map of `ADGMaker`: a JavaScript `Map` in insertion order,
    modelled as an association list whose keys stay unique. -/
abbrev AdgMap : Type := List (List Char × List InstrumentRender)

/-- Key membership, as `Map.prototype.has`. -/
def mapHasKey (m : AdgMap) (k : List Char) : Bool := m.any (fun kv => kv.1 == k)

/-- Lookup giving the accumulated fragment list of a key (empty if absent). -/
def mapGetD (m : AdgMap) (k : List Char) : List InstrumentRender :=
  (((m.filter (fun kv => kv.1 == k)).map Prod.snd).headD [])

/-- Model of `ADGMaker.addSampleFileToInstrument` state change: create the
    entry on first use (at the end, as `Map.prototype.set` does for a new
    key), then push the fragment onto the entry of `adgName`. -/
def mapPush (m : AdgMap) (k : List Char) (v : InstrumentRender) : AdgMap :=
  if mapHasKey m k then
    m.map (fun kv => if kv.1 == k then (kv.1, kv.2 ++ [v]) else kv)
  else
    m ++ [(k, [v])]

/-- The mutable processor state: the cancellation flag together with the
    accumulation map owned by the embedded `ADGMaker`. -/
structure ProcState where
  cancelled : Bool
  adgs : AdgMap
deriving DecidableEq

/-- Model of `SamplePackProcessor.cancel`. -/
def cancel (st : ProcState) : ProcState := { st with cancelled := true }

/-- Model of `SamplePackProcessor.reset`. -/
def reset (st : ProcState) : ProcState := { st with cancelled := false }

/-- The observable outcome of a processing phase: the updated map, the events
    emitted in order, and (as an instrumentation of the model) the list of
    `addSampleFileToInstrument` calls made, each recorded as
    `(filePath, adgName, noteValue)`. -/
structure PhaseOut where
  adgs : AdgMap
  events : List Event
  calls : List (List Char × List Char × Int)
deriving DecidableEq

/-- Model of the loop of `SamplePackProcessor.processSamplesForAdg`:
    check cancellation before each sample, add the sample under slot
    `104 - i`, and emit per-sample progress `{current := i + 1}`.
    `path.resolve` is the identity on the absolute normalized paths the
    scanner produces.  Without concurrency the flag cannot change mid-loop,
    so it is a parameter. -/
def processSamples (ft : List Char) (cancelled : Bool) (adgName : List Char) (total : Nat) :
    Nat → AdgMap → List (List Char) → PhaseOut
  | _, adgs, [] => ⟨adgs, [], []⟩
  | i, adgs, s :: rest =>
    if cancelled then ⟨adgs, [], []⟩
    else
      let nv : Int := 104 - (i : Int)
      let adgs2 := mapPush adgs adgName (createInstrumentXml ft s nv)
      let out := processSamples ft cancelled adgName total (i + 1) adgs2 rest
      ⟨out.adgs, Event.progressFile (i + 1) total (basenameL s) :: out.events,
        (s, adgName, nv) :: out.calls⟩

/-- Model of `SamplePackProcessor.processSamplesForAdg` (the loop started at
    index 0 with `total = samples.length`). -/
def processSamplesForAdg (ft : List Char) (cancelled : Bool) (adgs : AdgMap)
    (adgName : List Char) (samples : List (List Char)) : PhaseOut :=
  processSamples ft cancelled adgName samples.length 0 adgs samples

/-- The call shape used at both call sites of `processSamplesForAdg` inside
    `createAdgFromSamplesPath`: the discovered samples are first truncated by
    `slice(0, 104)`. -/
def processGroup (ft : List Char) (adgs : AdgMap) (adgName : List Char)
    (samples : List (List Char)) : PhaseOut :=
  processSamplesForAdg ft false adgs adgName (samples.take 104)

/-- The filesystem and failure environment of one run: directory listings,
    recursive sample discovery results per directory, which container writes
    fail (exceptions thrown out of `createBaseXml` or `createAdg`, with their
    message), and which folders throw out of `createAdgFromSamplesPath`
    (modelled as thrown at folder entry and caught by the try/catch of
    `processMultipleFolders`). -/
structure Env where
  rootEntriesOf : List Char → List DirEntry
  filesUnder : List Char → List (List Char)
  writeFails : List Char → Bool
  writeErrMsg : List Char → List Char
  folderThrows : List Char → Option (List Char)

/-- The artifact path `path.join(outputDir, adgName + ".adg")` returned by
    `ADGMaker.createAdg`. -/
def adgFilePath (outputDir nm : List Char) : List Char :=
  outputDir ++ '/' :: (nm ++ (".adg").data)

/-- The outcome of the flush loop: containers successfully written and the
    created / error events in order. -/
structure FlushOut where
  count : Nat
  events : List Event
deriving DecidableEq

/-- Model of the flush loop at the end of `createAdgFromSamplesPath`: for
    each accumulated entry (in map order), check cancellation, then either
    write the container and emit a created event, or catch the write failure
    and emit an error event naming the container. -/
def flushLoop (env : Env) (cancelled : Bool) (outputDir : List Char) : AdgMap → FlushOut
  | [] => ⟨0, []⟩
  | (nm, _instr) :: rest =>
    if cancelled then ⟨0, []⟩
    else if env.writeFails nm then
      let next := flushLoop env cancelled outputDir rest
      ⟨next.count,
        Event.error (("Failed to create ").data ++ nm ++ (": ").data ++ env.writeErrMsg nm)
          :: next.events⟩
    else
      let next := flushLoop env cancelled outputDir rest
      ⟨next.count + 1, Event.created nm (adgFilePath outputDir nm) :: next.events⟩

/-- Model of the subdirectory loop of `createAdgFromSamplesPath`: check
    cancellation before each subdirectory, name the container
    `name + " - " + subdirName`, truncate the discovered samples to 104,
    process them when any remain (zero-sample groups are skipped silently),
    and emit per-subdirectory progress. -/
def subdirLoop (env : Env) (ft : List Char) (cancelled : Bool) (nm : List Char) (total : Nat) :
    Nat → AdgMap → List (List Char) → PhaseOut
  | _, adgs, [] => ⟨adgs, [], []⟩
  | idx, adgs, subdir :: rest =>
    if cancelled then ⟨adgs, [], []⟩
    else
      let subdirName := basenameL subdir
      let adgName := nm ++ (" - ").data ++ subdirName
      let limited := (env.filesUnder subdir).take 104
      let out :=
        if 0 < limited.length then processSamplesForAdg ft cancelled adgs adgName limited
        else ⟨adgs, [], []⟩
      let next := subdirLoop env ft cancelled nm total (idx + 1) out.adgs rest
      ⟨next.adgs,
        out.events ++ Event.progressFolder (idx + 1) total subdirName :: next.events,
        out.calls ++ next.calls⟩

/-- Model of the falsy-coalescing `givenName || path.basename(samplesPath)`
    (an empty string is falsy). -/
def jsNameOr (o : Option (List Char)) (d : List Char) : List Char :=
  match o with
  | some n => if n = [] then d else n
  | none => d

/-- The observable outcome of one `createAdgFromSamplesPath` run. -/
structure RunOut where
  count : Nat
  cancelled : Bool
  adgs : AdgMap
  events : List Event
  calls : List (List Char × List Char × Int)
deriving DecidableEq

/-- Model of `SamplePackProcessor.createAdgFromSamplesPath`.  It first resets
    the state: `emptyAdgs()` clears the accumulation map and the code sets
    `this.cancelled = false`, so the initial state `st` is discarded (this is
    what the run actually does to any previously set flag).  Then: list the
    qualifying subdirectories; with none, treat the folder as flat (process
    its own samples, or report the no-samples error and return 0 before any
    flush); otherwise process each subdirectory; finally flush every
    accumulated container. -/
def createAdgFromSamplesPath (env : Env) (ft : List Char) (_st : ProcState)
    (samplesPath outputDir : List Char) (givenName : Option (List Char))
    (includeLoops : Bool) : RunOut :=
  let adgs0 : AdgMap := []
  let cancelled := false
  let nm := jsNameOr givenName (basenameL samplesPath)
  let subdirs :=
    getSubdirsContainingValidSamples samplesPath (env.rootEntriesOf samplesPath) includeLoops
  if subdirs.length = 0 then
    let samples := env.filesUnder samplesPath
    if 0 < samples.length then
      let out := processGroup ft adgs0 nm samples
      let flush := flushLoop env cancelled outputDir out.adgs
      ⟨flush.count, cancelled, out.adgs, out.events ++ flush.events, out.calls⟩
    else
      ⟨0, cancelled, adgs0,
        (Event.error (("No ").data ++ ft ++ (" samples found in ").data ++ samplesPath)) :: [],
        []⟩
  else
    let out := subdirLoop env ft cancelled nm subdirs.length 0 adgs0 subdirs
    let flush := flushLoop env cancelled outputDir out.adgs
    ⟨flush.count, cancelled, out.adgs, out.events ++ flush.events, out.calls⟩

/-- Generation options as far as the orchestrator consumes them. -/
structure GenOptions where
  folders : List (List Char)
  outputDirectory : List Char
  includeLoops : Bool
  customNames : List Char → Option (List Char)

/-- The observable outcome of `processMultipleFolders`. -/
structure MultiOut where
  total : Nat
  state : ProcState
  events : List Event
  calls : List (List Char × List Char × Int)

/-- Model of the folder loop of `SamplePackProcessor.processMultipleFolders`:
    check cancellation before each folder, resolve the custom name, run the
    per-folder flow, catch any exception it throws (reported via the error
    callback, processing continues with the next folder), and sum counts. -/
def foldersLoop (env : Env) (ft : List Char) (opts : GenOptions) :
    ProcState → List (List Char) → MultiOut
  | st, [] => ⟨0, st, [], []⟩
  | st, folder :: rest =>
    if st.cancelled then ⟨0, st, [], []⟩
    else
      match env.folderThrows folder with
      | some e =>
        let next := foldersLoop env ft opts st rest
        ⟨next.total, next.state,
          Event.error (("Error processing ").data ++ folder ++ (": ").data ++ e) :: next.events,
          next.calls⟩
      | none =>
        let run := createAdgFromSamplesPath env ft st folder opts.outputDirectory
          (opts.customNames folder) opts.includeLoops
        let st2 : ProcState := ⟨run.cancelled, run.adgs⟩
        let next := foldersLoop env ft opts st2 rest
        ⟨run.count + next.total, next.state, run.events ++ next.events,
          run.calls ++ next.calls⟩

/-- Model of `SamplePackProcessor.processMultipleFolders`. -/
def processMultipleFolders (env : Env) (ft : List Char) (opts : GenOptions)
    (st : ProcState) : MultiOut :=
  foldersLoop env ft opts st opts.folders

/-! ## Container files (`ADGMaker.createAdg`) -/

/-- Contents of a file in the output directory: either plain text or a gzip
    stream.  `gzipData c` models the standard gzip stream produced by
    `zlib.createGzip` from the byte content `c`; decompression recovers `c`
    exactly (the defining contract of gzip framing). -/
inductive FileData where
  | text (content : List Char)
  | gzipData (content : List Char)
deriving DecidableEq

/-- Decompression of a gzip stream (fails on a non-gzip file). -/
def gunzipData : FileData → Option (List Char)
  | FileData.text _ => none
  | FileData.gzipData c => some c

/-- A path in the modelled filesystem: directory and file name, the two
    arguments of `path.join` in `createAdg`. -/
abbrev FsPath : Type := (List Char) × (List Char)

/-- The filesystem state and returned path after a `createAdg` call. -/
structure AdgWrite where
  fs : FsPath → Option FileData
  result : List Char

/-- Rendering of an `FsPath` as the joined path string. -/
def pathStringOf (p : FsPath) : List Char := p.1 ++ '/' :: p.2

/-- Model of `ADGMaker.createAdg`: write the document to
    `<outputDir>/<name>.xml`, gzip that file into `<outputDir>/<name>.adg`,
    delete the intermediate file unless in debug mode, and return the `.adg`
    path. -/
def createAdg (debug : Bool) (fs0 : FsPath → Option FileData)
    (adgName xml outputDir : List Char) : AdgWrite :=
  let xmlFile : FsPath := (outputDir, adgName ++ (".xml").data)
  let adgFile : FsPath := (outputDir, adgName ++ (".adg").data)
  let fs1 : FsPath → Option FileData :=
    fun q => if q = xmlFile then some (FileData.text xml) else fs0 q
  let fs2 : FsPath → Option FileData :=
    fun q => if q = adgFile then some (FileData.gzipData xml) else fs1 q
  let fs3 : FsPath → Option FileData :=
    if debug then fs2 else fun q => if q = xmlFile then none else fs2 q
  ⟨fs3, pathStringOf adgFile⟩

/-! ## Helper observations and concrete environments -/

/-- Keys of the accumulation map, in insertion order. -/
def mapKeys (m : AdgMap) : List (List Char) := m.map Prod.fst

/-- The container name carried by a created event. -/
def createdName : Event → Option (List Char)
  | Event.created nm _ => some nm
  | _ => none

/-- Whether an event is a per-sample progress event. -/
def isSampleProgress : Event → Bool
  | Event.progressFile _ _ _ => true
  | _ => false

/-- Whether an event is a created event. -/
def isCreatedEvent : Event → Bool
  | Event.created _ _ => true
  | _ => false

/-- Whether an event is an error event. -/
def isErrorEvent : Event → Bool
  | Event.error _ => true
  | _ => false

/-- A concrete environment: one flat folder `/flat` holding a single sample,
    subdirectories nowhere, and no failures. -/
def envFlat : Env :=
  { rootEntriesOf := fun _ => []
    filesUnder := fun p => if p = ("/flat").data then (("/flat/a.wav").data) :: [] else []
    writeFails := fun _ => false
    writeErrMsg := fun _ => []
    folderThrows := fun _ => none }

/-- A concrete environment with two flat folders that share the base name
    `Pack`, each holding one sample, and no failures. -/
def envPacks : Env :=
  { rootEntriesOf := fun _ => []
    filesUnder := fun p =>
      if p = ("/x/Pack").data then (("/x/Pack/a.wav").data) :: []
      else if p = ("/y/Pack").data then (("/y/Pack/b.wav").data) :: []
      else []
    writeFails := fun _ => false
    writeErrMsg := fun _ => []
    folderThrows := fun _ => none }

/-- Options processing the two `Pack` folders of `envPacks`. -/
def optsPacks : GenOptions :=
  { folders := (("/x/Pack").data) :: (("/y/Pack").data) :: []
    outputDirectory := ("/out").data
    includeLoops := false
    customNames := fun _ => none }

/-- A character is an uppercase hexadecimal digit. -/
def isUpperHexDigit (c : Char) : Prop :=
  ('0' ≤ c ∧ c ≤ '9') ∨ ('A' ≤ c ∧ c ≤ 'F')

instance : DecidablePred isUpperHexDigit := fun c => by
  unfold isUpperHexDigit
  infer_instance

lemma hexDigit_isUpperHex : ∀ n : Nat, n < 16 → isUpperHexDigit (hexDigit n) := by
  decide

lemma hexByte_isUpperHex {b : Nat} (hb : b < 256) :
    ∀ c ∈ hexByte b, isUpperHexDigit c := by
  intro c hc
  have h1 : b / 16 < 16 := Nat.div_lt_of_lt_mul (by omega)
  have h2 : b % 16 < 16 := Nat.mod_lt _ (by omega)
  simp only [hexByte, List.mem_cons, List.mem_singleton, List.not_mem_nil, or_false] at hc
  rcases hc with h | h
  · exact h ▸ hexDigit_isUpperHex _ h1
  · exact h ▸ hexDigit_isUpperHex _ h2

lemma utf16leUnit_lt (u : Nat) : ∀ b ∈ utf16leUnit u, b < 256 := by
  intro b hb
  simp only [utf16leUnit, List.mem_cons, List.mem_singleton, List.not_mem_nil, or_false] at hb
  rcases hb with h | h
  · exact h ▸ Nat.mod_lt _ (by omega)
  · exact h ▸ Nat.mod_lt _ (by omega)

lemma encodeUtf16Hex_data (p : List Nat) :
    (encodeUtf16Hex p).data =
      ((((0xFEFF :: p).map utf16leUnit).flatten).map hexByte).flatten := rfl

lemma length_flatten_map_hexByte (l : List Nat) :
    ((l.map hexByte).flatten).length = 2 * l.length := by
  induction l with
  | nil => simp
  | cons b t ih => simp [hexByte, ih]; ring

lemma length_flatten_map_utf16leUnit (l : List Nat) :
    ((l.map utf16leUnit).flatten).length = 2 * l.length := by
  induction l with
  | nil => simp
  | cons u t ih => simp [utf16leUnit, ih]; ring

/-- C2: for every JavaScript string (sequence of UTF-16 code units),
    `encodeUtf16Hex` yields the uppercase hex encoding of the BOM-prefixed
    UTF-16LE bytes: the result starts with "FFFE", consists only of uppercase
    hex digits, has even length (four digits per code unit plus four for the
    BOM), is deterministic, is total (it is a function), and encodes "test"
    as "FFFE7400650073007400". -/
theorem encodeUtf16Hex_spec (p : List Nat) (hp : ∀ u ∈ p, u < 65536) :
    (∃ rest, (encodeUtf16Hex p).data = 'F' :: 'F' :: 'F' :: 'E' :: rest) ∧
    (∀ c ∈ (encodeUtf16Hex p).data, isUpperHexDigit c) ∧
    (encodeUtf16Hex p).data.length = 4 * (p.length + 1) ∧
    (encodeUtf16Hex p).data.length % 2 = 0 ∧
    (∀ q, p = q → encodeUtf16Hex p = encodeUtf16Hex q) ∧
    encodeUtf16Hex [0x74, 0x65, 0x73, 0x74] = "FFFE7400650073007400" := by
  refine ⟨⟨((((p.map utf16leUnit).flatten).map hexByte).flatten), rfl⟩, ?_, ?_, ?_, ?_, ?_⟩
  · intro c hc
    rw [encodeUtf16Hex_data] at hc
    rw [List.mem_flatten] at hc
    obtain ⟨l, hl, hcl⟩ := hc
    rw [List.mem_map] at hl
    obtain ⟨b, hb, rfl⟩ := hl
    rw [List.mem_flatten] at hb
    obtain ⟨bl, hbl, hbbl⟩ := hb
    rw [List.mem_map] at hbl
    obtain ⟨u, _, rfl⟩ := hbl
    exact hexByte_isUpperHex (utf16leUnit_lt u b hbbl) c hcl
  · rw [encodeUtf16Hex_data, length_flatten_map_hexByte, length_flatten_map_utf16leUnit]
    simp only [List.length_cons]
    ring
  · rw [encodeUtf16Hex_data, length_flatten_map_hexByte, length_flatten_map_utf16leUnit]
    omega
  · intro q h
    rw [h]
  · rfl

/-- Witness for C2 at the concrete input "test". -/
theorem encodeUtf16Hex_spec_witness :
    (∀ u ∈ [0x74, 0x65, 0x73, 0x74], u < 65536) ∧
    encodeUtf16Hex [0x74, 0x65, 0x73, 0x74] = "FFFE7400650073007400" :=
  ⟨by decide,
    (encodeUtf16Hex_spec [0x74, 0x65, 0x73, 0x74] (by decide)).2.2.2.2.2⟩

/-! ## C8: path-hint fragments -/

lemma sliceOneNegOne_eq {α : Type} (l : List α) :
    sliceOneNegOne l = (l.drop 1).dropLast := by
  rw [sliceOneNegOne, List.dropLast_eq_take, List.drop_take, List.length_drop]

/-- C8: the fragment list of `createPathHint` has exactly one element of the
    form `<RelativePathElement Dir="segment" />` per intermediate directory
    segment (the split segments minus the first and the last), in order, each
    segment preserved verbatim; with no intermediate segment the rendered
    hint string is empty. -/
theorem createPathHint_spec (p : List Char) :
    createPathHintEls p = (((splitSep p).drop 1).dropLast).map hintEl ∧
    (createPathHintEls p).length = (((splitSep p).drop 1).dropLast).length ∧
    (((splitSep p).drop 1).dropLast = [] → createPathHint p = []) := by
  refine ⟨?_, ?_, ?_⟩
  · rw [createPathHintEls, sliceOneNegOne_eq]
  · rw [createPathHintEls, sliceOneNegOne_eq, List.length_map]
  · intro h
    rw [createPathHint, createPathHintEls, sliceOneNegOne_eq, h]
    rfl

/-- Witness for C8 at a path with two intermediate segments and at a path
    directly under the root. -/
theorem createPathHint_spec_witness :
    (((splitSep (("/kick.wav").data)).drop 1).dropLast = [] ∧
      createPathHint (("/kick.wav").data) = []) ∧
    createPathHintEls (("/a/b/c.wav").data) =
      (((splitSep (("/a/b/c.wav").data)).drop 1).dropLast).map hintEl :=
  ⟨⟨by decide, (createPathHint_spec (("/kick.wav").data)).2.2 (by decide)⟩,
    (createPathHint_spec (("/a/b/c.wav").data)).1⟩

/-! ## C4: subdirectory filtering -/

lemma length_filter_and_le {α : Type} (p q : α → Bool) (l : List α) :
    (l.filter (fun a => p a && q a)).length ≤ (l.filter p).length := by
  induction l with
  | nil => simp
  | cons a t ih =>
    by_cases hp : p a <;> by_cases hq : q a <;>
      simp [List.filter_cons, hp, hq, ih] <;> omega

lemma length_filter_and_sub {α : Type} (p q : α → Bool) (l : List α) :
    (l.filter (fun a => p a && !q a)).length =
      (l.filter p).length - (l.filter (fun a => p a && q a)).length := by
  induction l with
  | nil => simp
  | cons a t ih =>
    have hle := length_filter_and_le p q t
    by_cases hp : p a <;> by_cases hq : q a <;>
      simp [List.filter_cons, hp, hq, ih] <;> omega

/-- C4: with `k` immediate directory entries of which `m` have a lowercased
    name containing "loop", `getSubdirsContainingValidSamples` returns all
    `k` when `includeLoops` is true and exactly `k - m` when it is false, and
    every returned path comes from a directory entry (non-directory entries
    are never returned). -/
theorem getSubdirs_spec (dirPath : List Char) (entries : List DirEntry) :
    (getSubdirsContainingValidSamples dirPath entries true).length =
      (entries.filter (fun e => e.isDir)).length ∧
    (getSubdirsContainingValidSamples dirPath entries false).length =
      (entries.filter (fun e => e.isDir)).length -
        (entries.filter (fun e => e.isDir && containsLoop e.entryName)).length ∧
    (∀ b : Bool, ∀ p ∈ getSubdirsContainingValidSamples dirPath entries b,
      ∃ e ∈ entries, e.isDir = true ∧ p = joinPath dirPath e.entryName) := by
  refine ⟨?_, ?_, ?_⟩
  · rw [getSubdirsContainingValidSamples, List.length_map]
    simp
  · rw [getSubdirsContainingValidSamples, List.length_map]
    have h := length_filter_and_sub (fun e : DirEntry => e.isDir)
      (fun e => containsLoop e.entryName) entries
    simpa using h
  · intro b p hp
    rw [getSubdirsContainingValidSamples, List.mem_map] at hp
    obtain ⟨e, he, rfl⟩ := hp
    rw [List.mem_filter] at he
    refine ⟨e, he.1, ?_, rfl⟩
    have := he.2
    cases hd : e.isDir
    · rw [hd] at this
      simp at this
    · rfl

/-- Witness for C4 on a listing with two plain directories, one
    loop-directory and one file. -/
theorem getSubdirs_spec_witness :
    ((getSubdirsContainingValidSamples (("/pk").data)
        [⟨("Kicks").data, true⟩, ⟨("Loops").data, true⟩, ⟨("Snares").data, true⟩,
          ⟨("readme.txt").data, false⟩] false).length = 3 - 1) ∧
    (∃ e ∈ [⟨("Kicks").data, true⟩, ⟨("Loops").data, true⟩, ⟨("Snares").data, true⟩,
          (⟨("readme.txt").data, false⟩ : DirEntry)], e.isDir = true ∧
        joinPath (("/pk").data) (("Kicks").data) = joinPath (("/pk").data) e.entryName) := by
  have h := getSubdirs_spec (("/pk").data)
    [⟨("Kicks").data, true⟩, ⟨("Loops").data, true⟩, ⟨("Snares").data, true⟩,
      ⟨("readme.txt").data, false⟩]
  refine ⟨?_, ?_⟩
  · have h2 := h.2.1
    rw [h2]
    decide
  · exact h.2.2 false (joinPath (("/pk").data) (("Kicks").data)) (by decide)

/-! ## C6: container artifact write -/

lemma xml_ne_adg_path (outputDir adgName : List Char) :
    ((outputDir, adgName ++ (".xml").data) : FsPath) ≠
      (outputDir, adgName ++ (".adg").data) := by
  intro h
  rw [Prod.mk.injEq] at h
  have h2 := List.append_cancel_left h.2
  exact absurd h2 (by decide)

/-- C6: `createAdg` returns the `.adg` path under the output directory; the
    written artifact is a gzip stream wrapping the rendered document, so
    decompressing it yields exactly that document; and the intermediate
    `.xml` file still exists afterwards if and only if debug mode is set. -/
theorem createAdg_spec (debug : Bool) (fs0 : FsPath → Option FileData)
    (adgName xml outputDir : List Char) :
    (createAdg debug fs0 adgName xml outputDir).result =
      outputDir ++ '/' :: (adgName ++ (".adg").data) ∧
    (createAdg debug fs0 adgName xml outputDir).fs
        (outputDir, adgName ++ (".adg").data) = some (FileData.gzipData xml) ∧
    Option.bind ((createAdg debug fs0 adgName xml outputDir).fs
        (outputDir, adgName ++ (".adg").data)) gunzipData = some xml ∧
    ((createAdg debug fs0 adgName xml outputDir).fs
        (outputDir, adgName ++ (".xml").data) = some (FileData.text xml) ↔
      debug = true) := by
  have hne := xml_ne_adg_path outputDir adgName
  cases debug with
  | false =>
    refine ⟨rfl, ?_, ?_, ?_⟩
    · simp [createAdg, hne.symm]
    · simp [createAdg, hne.symm, gunzipData]
    · simp [createAdg]
  | true =>
    refine ⟨rfl, ?_, ?_, ?_⟩
    · simp [createAdg, hne.symm]
    · simp [createAdg, hne.symm, gunzipData]
    · simp [createAdg, hne]

/-! ## C3: cancellation lifecycle -/

lemma processSamples_true (ft nm : List Char) (t i : Nat) (adgs : AdgMap)
    (samples : List (List Char)) :
    processSamples ft true nm t i adgs samples = ⟨adgs, [], []⟩ := by
  cases samples <;> rfl

lemma flushLoop_true (env : Env) (d : List Char) (m : AdgMap) :
    flushLoop env true d m = ⟨0, []⟩ := by
  match m with
  | [] => rfl
  | (nm, instr) :: rest => rfl

lemma subdirLoop_true (env : Env) (ft nm : List Char) (t i : Nat) (adgs : AdgMap)
    (subs : List (List Char)) :
    subdirLoop env ft true nm t i adgs subs = ⟨adgs, [], []⟩ := by
  cases subs <;> rfl

lemma foldersLoop_true (env : Env) (ft : List Char) (opts : GenOptions) (adgs : AdgMap)
    (folders : List (List Char)) :
    foldersLoop env ft opts ⟨true, adgs⟩ folders = ⟨0, ⟨true, adgs⟩, [], []⟩ := by
  cases folders <;> rfl

lemma run_cancelled_false (env : Env) (ft : List Char) (st : ProcState) (p d : List Char)
    (gn : Option (List Char)) (il : Bool) :
    (createAdgFromSamplesPath env ft st p d gn il).cancelled = false := by
  unfold createAdgFromSamplesPath
  dsimp only
  split
  · split
    · rfl
    · rfl
  · rfl

/-- C3 counterexample: from a state on which `cancel` has been called and
    `reset` has not, starting a new run via `createAdgFromSamplesPath` both
    clears the cancelled flag (the code sets `this.cancelled = false` at
    entry, under the comment "Reset state") and performs the work of the run
    (one container is created for the single sample of `/flat`).  This
    refutes the claim that the cancelled state persists until the separate
    `reset` call and that no further work is performed once `cancel` was
    called. -/
theorem cancelled_cleared_by_run_counterexample :
    (createAdgFromSamplesPath envFlat (("wav").data) (cancel ⟨false, []⟩)
        (("/flat").data) (("/out").data) none false).cancelled = false ∧
    (createAdgFromSamplesPath envFlat (("wav").data) (cancel ⟨false, []⟩)
        (("/flat").data) (("/out").data) none false).count = 1 := by
  exact ⟨by decide, by decide⟩

/-- C3 amended: `cancel` sets the flag and `reset` clears it, neither touches
    the accumulated containers; while the flag is set, the checkpoints
    observe it and no further work is performed (no samples are processed, no
    containers are flushed, no subdirectories or folders are visited); but
    the flag does not persist into a new run: `createAdgFromSamplesPath`
    clears it at entry, so its outcome is independent of the previous state
    and finishes with the flag cleared. -/
theorem cancellation_lifecycle_amended :
    (∀ st : ProcState, (cancel st).cancelled = true ∧ (reset st).cancelled = false ∧
      (cancel st).adgs = st.adgs ∧ (reset st).adgs = st.adgs) ∧
    (∀ (ft nm : List Char) (t i : Nat) (adgs : AdgMap) (samples : List (List Char)),
      processSamples ft true nm t i adgs samples = ⟨adgs, [], []⟩) ∧
    (∀ (env : Env) (d : List Char) (m : AdgMap), flushLoop env true d m = ⟨0, []⟩) ∧
    (∀ (env : Env) (ft nm : List Char) (t i : Nat) (adgs : AdgMap)
        (subs : List (List Char)),
      subdirLoop env ft true nm t i adgs subs = ⟨adgs, [], []⟩) ∧
    (∀ (env : Env) (ft : List Char) (opts : GenOptions) (adgs : AdgMap)
        (folders : List (List Char)),
      foldersLoop env ft opts ⟨true, adgs⟩ folders = ⟨0, ⟨true, adgs⟩, [], []⟩) ∧
    (∀ (env : Env) (ft : List Char) (st st2 : ProcState) (p d : List Char)
        (gn : Option (List Char)) (il : Bool),
      createAdgFromSamplesPath env ft st p d gn il =
        createAdgFromSamplesPath env ft st2 p d gn il ∧
      (createAdgFromSamplesPath env ft st p d gn il).cancelled = false) := by
  refine ⟨?_, processSamples_true, flushLoop_true, subdirLoop_true, foldersLoop_true, ?_⟩
  · intro st
    exact ⟨rfl, rfl, rfl, rfl⟩
  · intro env ft st st2 p d gn il
    exact ⟨rfl, run_cancelled_false env ft st p d gn il⟩

/-! ## C9: virtual path and display name -/

lemma dirEnd_nonslash (b : List Char) (hb : ∀ c ∈ b, c ≠ '/') :
    ∀ i : Nat, dirEnd b i false = none := by
  induction b with
  | nil => intro i; rfl
  | cons c rl ih =>
    intro i
    have hc : c ≠ '/' := hb c (List.mem_cons_self c rl)
    by_cases hi : i = 0
    · simp [dirEnd, hi]
    · simp only [dirEnd, if_neg hi, if_neg hc]
      exact ih (fun x hx => hb x (List.mem_cons_of_mem c hx)) (i - 1)

lemma dirEnd_append (b : List Char) (hne : b ≠ []) (hb : ∀ c ∈ b, c ≠ '/') :
    ∀ (rest : List Char) (i : Nat) (ms : Bool), b.length ≤ i →
      dirEnd (b ++ rest) i ms = dirEnd rest (i - b.length) false := by
  induction b with
  | nil => exact absurd rfl hne
  | cons c rl ih =>
    intro rest i ms hlen
    have hc : c ≠ '/' := hb c (List.mem_cons_self c rl)
    have hi : ¬ i = 0 := by
      simp only [List.length_cons] at hlen
      omega
    have hstep : dirEnd ((c :: rl) ++ rest) i ms = dirEnd (rl ++ rest) (i - 1) false := by
      simp only [List.cons_append, dirEnd, if_neg hi, if_neg hc]
      rfl
    rw [hstep]
    by_cases hrlnil : rl = []
    · subst hrlnil
      rfl
    · have hrlb : ∀ y ∈ rl, y ≠ '/' := fun y hy => hb y (List.mem_cons_of_mem c hy)
      have hrllen : rl.length ≤ i - 1 := by
        simp only [List.length_cons] at hlen
        omega
      rw [ih hrlnil hrlb rest (i - 1) false hrllen]
      congr 1
      simp only [List.length_cons]
      omega

lemma dirnameL_deep (a b : List Char) (hb : b ≠ []) (hbs : ∀ c ∈ b, c ≠ '/')
    (ha : a ≠ []) (hroot : a ≠ ('/') :: []) :
    dirnameL (a ++ '/' :: b) = a := by
  obtain ⟨a0, t, rfl⟩ : ∃ a0 t, a = a0 :: t := by
    cases a with
    | nil => exact absurd rfl ha
    | cons a0 t => exact ⟨a0, t, rfl⟩
  have hrev : ((a0 :: t) ++ '/' :: b).reverse = b.reverse ++ '/' :: (a0 :: t).reverse := by
    rw [List.reverse_append, List.reverse_cons]
    simp
  have hlen : ((a0 :: t) ++ '/' :: b).length - 1 = (a0 :: t).length + b.length := by
    simp only [List.length_append, List.length_cons]
    omega
  have hbrev : b.reverse ≠ [] := by
    intro h
    exact hb (by simpa using congrArg List.reverse h)
  have hbrevs : ∀ c ∈ b.reverse, c ≠ '/' := fun c hc => hbs c (List.mem_reverse.mp hc)
  have hE : dirEnd ((a0 :: t) ++ '/' :: b).reverse (((a0 :: t) ++ '/' :: b).length - 1) true =
      some (a0 :: t).length := by
    rw [hrev, hlen,
      dirEnd_append b.reverse hbrev hbrevs ('/' :: (a0 :: t).reverse)
        ((a0 :: t).length + b.length) true (by simp)]
    have h2 : (a0 :: t).length + b.length - b.reverse.length = (a0 :: t).length := by
      simp only [List.length_reverse]
      omega
    rw [h2]
    have h3 : ¬ (a0 :: t).length = 0 := by simp
    simp [dirEnd, h3]
  have hstep : dirnameL ((a0 :: t) ++ '/' :: b) =
      match dirEnd (((a0 :: t) ++ '/' :: b)).reverse ((((a0 :: t) ++ '/' :: b)).length - 1)
          true with
      | none => if a0 = '/' then ('/') :: [] else ('.') :: []
      | some e => if a0 = '/' ∧ e = 1 then ('/') :: ('/') :: []
                  else (((a0 :: t) ++ '/' :: b)).take e := rfl
  rw [hstep, hE]
  have hna : ¬ (a0 = '/' ∧ (a0 :: t).length = 1) := by
    rintro ⟨rfl, hlen1⟩
    apply hroot
    simp only [List.length_cons] at hlen1
    have : t = [] := List.eq_nil_of_length_eq_zero (by omega)
    rw [this]
  dsimp only
  rw [if_neg hna]
  exact List.take_left (a0 :: t) ('/' :: b)

lemma dirnameL_root (b : List Char) (hb : b ≠ []) (hbs : ∀ c ∈ b, c ≠ '/') :
    dirnameL ('/' :: b) = ('/') :: [] := by
  have hbrev : b.reverse ≠ [] := by
    intro h
    exact hb (by simpa using congrArg List.reverse h)
  have hbrevs : ∀ c ∈ b.reverse, c ≠ '/' := fun c hc => hbs c (List.mem_reverse.mp hc)
  have hE : dirEnd (('/' :: b).reverse) (('/' :: b).length - 1) true = none := by
    have hrev : ('/' :: b).reverse = b.reverse ++ ('/') :: [] := by
      rw [List.reverse_cons]
    rw [hrev]
    rw [dirEnd_append b.reverse hbrev hbrevs (('/') :: []) (('/' :: b).length - 1) true
      (by simp)]
    have h2 : ('/' :: b).length - 1 - b.reverse.length = 0 := by
      simp only [List.length_cons, List.length_reverse]
      omega
    rw [h2]
    rfl
  have hstep : dirnameL ('/' :: b) =
      match dirEnd (('/' :: b)).reverse ((('/' :: b)).length - 1) true with
      | none => if '/' = '/' then ('/') :: [] else ('.') :: []
      | some e => if '/' = '/' ∧ e = 1 then ('/') :: ('/') :: []
                  else (('/' :: b)).take e := rfl
  rw [hstep, hE]
  simp

lemma dropWhile_nonslash_append (b rest : List Char) (hbs : ∀ c ∈ b, c ≠ '/') :
    (b ++ '/' :: rest).dropWhile (fun c => !(c == '/')) = '/' :: rest := by
  induction b with
  | nil => simp [List.dropWhile]
  | cons c t ih =>
    have hc : c ≠ '/' := hbs c (List.mem_cons_self c t)
    have hcb : (!(c == '/')) = true := by
      simpa using hc
    simp only [List.cons_append, List.dropWhile_cons, hcb, if_true]
    exact ih (fun x hx => hbs x (List.mem_cons_of_mem c hx))

lemma beforeLastSep_append (a b : List Char) (hbs : ∀ c ∈ b, c ≠ '/') :
    beforeLastSep (a ++ '/' :: b) = a := by
  rw [beforeLastSep]
  have hrev : (a ++ '/' :: b).reverse = b.reverse ++ '/' :: a.reverse := by
    rw [List.reverse_append, List.reverse_cons]
    simp
  rw [hrev, dropWhile_nonslash_append b.reverse a.reverse
    (fun c hc => hbs c (List.mem_reverse.mp hc))]
  simp

/-- C9 counterexample: for the sample path `/kick.wav` (a file directly under
    the root) the composed virtual path is `userfolder://#kick.wav`, because
    `path.dirname` returns `/` rather than the empty string that "everything
    before the final separator" denotes; the claimed formula predicts
    `userfolder:/#kick.wav`. -/
theorem virtualPath_counterexample :
    (createInstrumentXml (("wav").data) (("/kick.wav").data) 104).ableton_path ≠
      ("userfolder:").data ++ beforeLastSep (("/kick.wav").data) ++ ('/') :: ('#') ::
        (createInstrumentXml (("wav").data) (("/kick.wav").data) 104).sample_file_name := by
  decide

/-- C9 amended: for a sample path whose directory portion is neither empty
    nor the bare root (`p = a ++ "/" ++ b` with slash-free filename `b` and
    nonempty `a ≠ "/"`), the composed virtual path is exactly
    `"userfolder:" + <before-final-separator> + "/" + "#" + <filename>`;
    for a file directly under the root the directory portion used is
    `path.dirname`, namely `/` itself (not the empty prefix before the final
    separator), yielding a doubled separator.  The display name is the base
    filename with exactly the configured dotted extension stripped from its
    end under case-insensitive comparison, or the unmodified base filename
    when the extension does not match (no exception raised). -/
theorem virtualPath_and_name_amended :
    (∀ (ft : List Char) (note : Int) (a b : List Char), b ≠ [] → (∀ c ∈ b, c ≠ '/') →
      a ≠ [] → a ≠ ('/') :: [] →
      (createInstrumentXml ft (a ++ '/' :: b) note).ableton_path =
        ("userfolder:").data ++ beforeLastSep (a ++ '/' :: b) ++ ('/') :: ('#') ::
          (createInstrumentXml ft (a ++ '/' :: b) note).sample_file_name) ∧
    (∀ (ft : List Char) (note : Int) (b : List Char), b ≠ [] → (∀ c ∈ b, c ≠ '/') →
      beforeLastSep ('/' :: b) = [] ∧
      (createInstrumentXml ft ('/' :: b) note).ableton_path =
        ("userfolder:").data ++ ('/') :: ('/') :: ('#') ::
          (createInstrumentXml ft ('/' :: b) note).sample_file_name) ∧
    (∀ (ft p : List Char) (note : Int) (r e : List Char),
      basenameL p = r ++ e → lowerAscii e = lowerAscii (('.') :: ft) →
      (createInstrumentXml ft p note).name = r) ∧
    (∀ (ft p : List Char) (note : Int),
      (¬ ∃ r e, basenameL p = r ++ e ∧ lowerAscii e = lowerAscii (('.') :: ft)) →
      (createInstrumentXml ft p note).name = basenameL p) := by
  refine ⟨?_, ?_, ?_, ?_⟩
  · intro ft note a b hb hbs ha hroot
    have hd := dirnameL_deep a b hb hbs ha hroot
    have hbl := beforeLastSep_append a b hbs
    simp only [createInstrumentXml, hd, hbl]
  · intro ft note b hb hbs
    have hd := dirnameL_root b hb hbs
    have hbl := beforeLastSep_append [] b hbs
    refine ⟨by simpa using hbl, ?_⟩
    simp only [createInstrumentXml, hd]
    rfl
  · intro ft p note r e hsplit hlow
    have hsuf : endsWithCI (r ++ e) (('.') :: ft) = true := by
      rw [endsWithCI, List.isSuffixOf_iff_suffix, ← hlow]
      exact ⟨lowerAscii r, by simp [lowerAscii]⟩
    have hlene : e.length = (('.') :: ft).length := by
      have h1 := congrArg List.length hlow
      simpa [lowerAscii] using h1
    simp only [createInstrumentXml, hsplit]
    rw [if_pos hsuf]
    have harith : (r ++ e).length - (('.') :: ft).length = r.length := by
      rw [List.length_append, hlene]
      omega
    rw [harith]
    exact List.take_left r e
  · intro ft p note hno
    by_cases hs : endsWithCI (basenameL p) (('.') :: ft) = true
    · exfalso
      apply hno
      rw [endsWithCI, List.isSuffixOf_iff_suffix] at hs
      obtain ⟨t, ht⟩ := hs
      have hlent : t.length = (basenameL p).length - (('.') :: ft).length := by
        have h1 := congrArg List.length ht
        simp only [List.length_append, lowerAscii, List.length_map] at h1
        omega
      refine ⟨(basenameL p).take ((basenameL p).length - (('.') :: ft).length),
        (basenameL p).drop ((basenameL p).length - (('.') :: ft).length),
        (List.take_append_drop _ _).symm, ?_⟩
      have h2 : lowerAscii ((basenameL p).drop ((basenameL p).length - (('.') :: ft).length)) =
          (lowerAscii (basenameL p)).drop ((basenameL p).length - (('.') :: ft).length) := by
        rw [lowerAscii, lowerAscii, List.map_drop]
      rw [h2, ← ht, ← hlent, List.drop_left]
    · simp only [createInstrumentXml]
      rw [if_neg hs]

/-- Witness for the amended C9 at the concrete sample `/a/Kick.WAV` with the
    configured extension `wav`. -/
theorem virtualPath_and_name_amended_witness :
    (createInstrumentXml (("wav").data) (("/a/Kick.WAV").data) 104).ableton_path =
      ("userfolder:").data ++ beforeLastSep (("/a/Kick.WAV").data) ++ ('/') :: ('#') ::
        (createInstrumentXml (("wav").data) (("/a/Kick.WAV").data) 104).sample_file_name ∧
    (createInstrumentXml (("wav").data) (("/a/Kick.WAV").data) 104).name = ("Kick").data := by
  have h := virtualPath_and_name_amended
  have hconv : ("/a").data ++ '/' :: ("Kick.WAV").data = ("/a/Kick.WAV").data := by decide
  constructor
  · have h1 := h.1 (("wav").data) 104 (("/a").data) (("Kick.WAV").data)
      (by decide) (by decide) (by decide) (by decide)
    rw [hconv] at h1
    exact h1
  · exact h.2.2.1 (("wav").data) (("/a/Kick.WAV").data) 104 (("Kick").data) ((".WAV").data)
      (by decide) (by decide)

/-! ## C1: slot assignment and progress in one group -/

lemma filter_key_eq_nil (m : AdgMap) (k : List Char) (h : mapHasKey m k = false) :
    m.filter (fun kv => kv.1 == k) = [] := by
  rw [List.filter_eq_nil_iff]
  intro kv hkv
  rw [mapHasKey, List.any_eq_false] at h
  exact fun hb => h kv hkv (by simpa using hb)

lemma mapGetD_push_same (m : AdgMap) (k : List Char) (v : InstrumentRender) :
    mapGetD (mapPush m k v) k = mapGetD m k ++ [v] := by
  rw [mapPush]
  cases hhas : mapHasKey m k with
  | false =>
    rw [if_neg (by simp [hhas])]
    rw [mapGetD, mapGetD, filter_key_eq_nil m k hhas, List.filter_append,
      filter_key_eq_nil m k hhas]
    simp
  | true =>
    rw [if_pos (by simp [hhas])]
    rw [mapHasKey] at hhas
    induction m with
    | nil => simp at hhas
    | cons kv m ih =>
      by_cases hk : kv.1 == k
      · simp only [List.map_cons, hk, if_true, mapGetD, List.filter_cons, hk]
        simp
      · have hhas2 : m.any (fun kv => kv.1 == k) = true := by
          rw [List.any_cons] at hhas
          simpa [hk] using hhas
        have ih2 := ih hhas2
        simp only [List.map_cons, hk, if_false, mapGetD, List.filter_cons] at ih2 ⊢
        simpa [hk] using ih2

lemma processSamples_adgs (ft nm : List Char) (t : Nat) (samples : List (List Char))
    (i : Nat) (adgs : AdgMap) :
    (processSamples ft false nm t i adgs (samples)).adgs =
      match samples with
      | [] => adgs
      | s :: rest =>
        (processSamples ft false nm t (i + 1)
          (mapPush adgs nm (createInstrumentXml ft s (104 - (i : Int)))) rest).adgs := by
  cases samples <;> rfl

lemma processSamples_getD_length (ft nm : List Char) (t : Nat) :
    ∀ (samples : List (List Char)) (i : Nat) (adgs : AdgMap),
      (mapGetD (processSamples ft false nm t i adgs samples).adgs nm).length =
        (mapGetD adgs nm).length + samples.length := by
  intro samples
  induction samples with
  | nil => intro i adgs; rfl
  | cons s rest ih =>
    intro i adgs
    rw [processSamples_adgs]
    rw [ih (i + 1) (mapPush adgs nm (createInstrumentXml ft s (104 - (i : Int))))]
    rw [mapGetD_push_same]
    simp only [List.length_append, List.length_cons, List.length_nil]
    omega

lemma processSamples_calls (ft nm : List Char) (t : Nat) :
    ∀ (samples : List (List Char)) (i : Nat) (adgs : AdgMap),
      (processSamples ft false nm t i adgs samples).calls =
        (samples.enumFrom i).map (fun q => (q.2, nm, (104 : Int) - (q.1 : Int))) := by
  intro samples
  induction samples with
  | nil => intro i adgs; rfl
  | cons s rest ih =>
    intro i adgs
    show (s, nm, (104 : Int) - (i : Int)) ::
        (processSamples ft false nm t (i + 1)
          (mapPush adgs nm (createInstrumentXml ft s (104 - (i : Int)))) rest).calls = _
    rw [ih (i + 1)]
    rfl

lemma processSamples_events (ft nm : List Char) (t : Nat) :
    ∀ (samples : List (List Char)) (i : Nat) (adgs : AdgMap),
      (processSamples ft false nm t i adgs samples).events =
        (samples.enumFrom i).map (fun q => Event.progressFile (q.1 + 1) t (basenameL q.2)) := by
  intro samples
  induction samples with
  | nil => intro i adgs; rfl
  | cons s rest ih =>
    intro i adgs
    show Event.progressFile (i + 1) t (basenameL s) ::
        (processSamples ft false nm t (i + 1)
          (mapPush adgs nm (createInstrumentXml ft s (104 - (i : Int)))) rest).events = _
    rw [ih (i + 1)]
    rfl

lemma enumFrom_pairwise_fst {α : Type} :
    ∀ (l : List α) (i : Nat), (l.enumFrom i).Pairwise (fun a b => a.1 < b.1) := by
  intro l
  induction l with
  | nil => intro i; exact List.Pairwise.nil
  | cons x xs ih =>
    intro i
    refine List.Pairwise.cons ?_ (ih (i + 1))
    intro b hb
    have := List.le_fst_of_mem_enumFrom hb
    omega

/-- C1: for a group of `s` discovered samples the batch processor (the
    `slice(0, 104)` call shape feeding `processSamplesForAdg`) processes
    exactly `min s 104` samples in discovery order, assigning index `i` the
    slot `104 - i` (slots strictly descending, hence unique), emits per
    sample a progress event with `current = i + 1` never exceeding 104, and
    accumulates exactly one rendered fragment per processed sample in the
    container. -/
theorem processGroup_batch_spec (ft adgName : List Char) (samples : List (List Char)) :
    (processGroup ft [] adgName samples).calls =
      ((samples.take 104).enum).map
        (fun q => (q.2, adgName, (104 : Int) - (q.1 : Int))) ∧
    (processGroup ft [] adgName samples).calls.length = min samples.length 104 ∧
    ((processGroup ft [] adgName samples).calls.map (fun c => c.2.2)).Pairwise
      (fun x y => y < x) ∧
    (processGroup ft [] adgName samples).events =
      ((samples.take 104).enum).map
        (fun q => Event.progressFile (q.1 + 1) (min samples.length 104) (basenameL q.2)) ∧
    (∀ c t f, Event.progressFile c t f ∈ (processGroup ft [] adgName samples).events →
      c ≤ 104) ∧
    (mapGetD (processGroup ft [] adgName samples).adgs adgName).length =
      min samples.length 104 := by
  have hmin : (samples.take 104).length = min samples.length 104 := by
    rw [List.length_take, Nat.min_comm]
  have hcalls := processSamples_calls ft adgName (samples.take 104).length
    (samples.take 104) 0 []
  have hevents := processSamples_events ft adgName (samples.take 104).length
    (samples.take 104) 0 []
  simp only [processGroup, processSamplesForAdg]
  refine ⟨hcalls, ?_, ?_, ?_, ?_, ?_⟩
  · rw [hcalls, List.length_map, List.enumFrom_length, hmin]
  · rw [hcalls, List.map_map]
    refine (enumFrom_pairwise_fst (samples.take 104) 0).map _ ?_
    intro a b hab
    simp only [Function.comp]
    omega
  · rw [hevents, hmin]
    rfl
  · intro c t f hmem
    rw [hevents] at hmem
    rw [List.mem_map] at hmem
    obtain ⟨q, hq, heq⟩ := hmem
    have hlt := List.fst_lt_add_of_mem_enumFrom hq
    cases heq
    rw [List.length_take] at hlt
    omega
  · rw [processSamples_getD_length ft adgName (samples.take 104).length (samples.take 104) 0 []]
    rw [List.length_take, Nat.min_comm]
    simp [mapGetD]

/-- Witness for C1 on a two-sample group. -/
theorem processGroup_batch_spec_witness :
    (Event.progressFile 1 2 (("x.wav").data) ∈
      (processGroup (("wav").data) [] (("K").data)
        ((("/p/x.wav").data) :: (("/p/y.wav").data) :: [])).events) ∧
    (1 : Nat) ≤ 104 ∧
    (mapGetD (processGroup (("wav").data) [] (("K").data)
        ((("/p/x.wav").data) :: (("/p/y.wav").data) :: [])).adgs (("K").data)).length =
      min 2 104 := by
  have h := processGroup_batch_spec (("wav").data) (("K").data)
    ((("/p/x.wav").data) :: (("/p/y.wav").data) :: [])
  have hmem : Event.progressFile 1 2 (("x.wav").data) ∈
      (processGroup (("wav").data) [] (("K").data)
        ((("/p/x.wav").data) :: (("/p/y.wav").data) :: [])).events := by decide
  exact ⟨hmem, h.2.2.2.2.1 1 2 (("x.wav").data) hmem, h.2.2.2.2.2⟩

/-! ## C10: slot values stay within 1..104 -/

lemma processSamples_note_bound (ft nm : List Char) (t : Nat) (samples : List (List Char))
    (i : Nat) (adgs : AdgMap) (hle : i + samples.length ≤ 104) :
    ∀ call ∈ (processSamples ft false nm t i adgs samples).calls,
      1 ≤ call.2.2 ∧ call.2.2 ≤ 104 := by
  intro call hmem
  rw [processSamples_calls] at hmem
  rw [List.mem_map] at hmem
  obtain ⟨q, hq, rfl⟩ := hmem
  have h1 := List.le_fst_of_mem_enumFrom hq
  have h2 := List.fst_lt_add_of_mem_enumFrom hq
  constructor
  · show (1 : Int) ≤ 104 - (q.1 : Int)
    omega
  · show (104 : Int) - (q.1 : Int) ≤ 104
    omega

lemma processGroup_note_bound (ft : List Char) (adgs : AdgMap) (nm : List Char)
    (samples : List (List Char)) :
    ∀ call ∈ (processGroup ft adgs nm samples).calls,
      1 ≤ call.2.2 ∧ call.2.2 ≤ 104 := by
  refine processSamples_note_bound ft nm (samples.take 104).length (samples.take 104) 0 adgs ?_
  have := List.length_take_le 104 samples
  omega

lemma subdirLoop_cons (env : Env) (ft nm : List Char) (t idx : Nat) (adgs : AdgMap)
    (subdir : List Char) (rest : List (List Char)) :
    subdirLoop env ft false nm t idx adgs (subdir :: rest) =
      (let out := if 0 < ((env.filesUnder subdir).take 104).length
          then processSamplesForAdg ft false adgs (nm ++ (" - ").data ++ basenameL subdir)
            ((env.filesUnder subdir).take 104)
          else ⟨adgs, [], []⟩
       let next := subdirLoop env ft false nm t (idx + 1) out.adgs rest
       (⟨next.adgs,
         out.events ++ Event.progressFolder (idx + 1) t (basenameL subdir) :: next.events,
         out.calls ++ next.calls⟩ : PhaseOut)) := rfl

lemma subdirLoop_note_bound (env : Env) (ft nm : List Char) (t : Nat) :
    ∀ (subs : List (List Char)) (idx : Nat) (adgs : AdgMap),
      ∀ call ∈ (subdirLoop env ft false nm t idx adgs subs).calls,
        1 ≤ call.2.2 ∧ call.2.2 ≤ 104 := by
  intro subs
  induction subs with
  | nil =>
    intro idx adgs call hmem
    simp [subdirLoop] at hmem
  | cons subdir rest ih =>
    intro idx adgs call hmem
    rw [subdirLoop_cons] at hmem
    simp only [List.mem_append] at hmem
    rcases hmem with hmem | hmem
    · by_cases hpos : 0 < ((env.filesUnder subdir).take 104).length
      · rw [if_pos hpos] at hmem
        refine processSamples_note_bound ft _ _ _ 0 adgs ?_ call hmem
        have := List.length_take_le 104 (env.filesUnder subdir)
        omega
      · rw [if_neg hpos] at hmem
        simp at hmem
    · exact ih (idx + 1) _ call hmem

lemma run_note_bound (env : Env) (ft : List Char) (st : ProcState) (p d : List Char)
    (gn : Option (List Char)) (il : Bool) :
    ∀ call ∈ (createAdgFromSamplesPath env ft st p d gn il).calls,
      1 ≤ call.2.2 ∧ call.2.2 ≤ 104 := by
  intro call hmem
  unfold createAdgFromSamplesPath at hmem
  dsimp only at hmem
  by_cases h1 : (getSubdirsContainingValidSamples p (env.rootEntriesOf p) il).length = 0
  · rw [if_pos h1] at hmem
    by_cases h2 : 0 < (env.filesUnder p).length
    · rw [if_pos h2] at hmem
      exact processGroup_note_bound ft [] _ (env.filesUnder p) call hmem
    · rw [if_neg h2] at hmem
      simp at hmem
  · rw [if_neg h1] at hmem
    exact subdirLoop_note_bound env ft _ _ _ 0 [] call hmem

lemma foldersLoop_note_bound (env : Env) (ft : List Char) (opts : GenOptions) :
    ∀ (folders : List (List Char)) (st : ProcState),
      ∀ call ∈ (foldersLoop env ft opts st folders).calls,
        1 ≤ call.2.2 ∧ call.2.2 ≤ 104 := by
  intro folders
  induction folders with
  | nil =>
    intro st call hmem
    simp [foldersLoop] at hmem
  | cons folder rest ih =>
    intro st call hmem
    obtain ⟨cflag, cadgs⟩ := st
    cases cflag with
    | true =>
      simp [foldersLoop] at hmem
    | false =>
      rw [foldersLoop] at hmem
      simp only [if_neg (by simp : ¬ (⟨false, cadgs⟩ : ProcState).cancelled = true)] at hmem
      cases hthrow : env.folderThrows folder with
      | some e =>
        rw [hthrow] at hmem
        exact ih _ call hmem
      | none =>
        rw [hthrow] at hmem
        dsimp only at hmem
        rw [List.mem_append] at hmem
        rcases hmem with hmem | hmem
        · exact run_note_bound env ft _ folder opts.outputDirectory
            (opts.customNames folder) opts.includeLoops call hmem
        · exact ih _ call hmem

/-- C10: during any batch-processor run (any environment, options and initial
    state), every slot value passed to `addSampleFileToInstrument` lies in the
    inclusive range 1..104: the 104-sample cap bounds the 0-based index at
    103 and the assigned slot is `104 - i`. -/
theorem slot_range_invariant (env : Env) (ft : List Char) (opts : GenOptions)
    (st : ProcState) :
    ∀ call ∈ (processMultipleFolders env ft opts st).calls,
      1 ≤ call.2.2 ∧ call.2.2 ≤ 104 :=
  foldersLoop_note_bound env ft opts opts.folders st

/-- Witness for C10 on the concrete two-folder run of `envPacks`. -/
theorem slot_range_invariant_witness :
    (1 : Int) ≤ (((("/x/Pack/a.wav").data, (("Pack").data, (104 : Int)))).2.2) ∧
    (((("/x/Pack/a.wav").data, (("Pack").data, (104 : Int)))).2.2) ≤ 104 :=
  slot_range_invariant envPacks (("wav").data) optsPacks ⟨false, []⟩ _ (by decide)

/-! ## Shared structure lemmas for the flush phase and whole runs -/

lemma flushLoop_cons (env : Env) (d nm : List Char) (instr : List InstrumentRender)
    (rest : AdgMap) :
    flushLoop env false d ((nm, instr) :: rest) =
      if env.writeFails nm then
        ⟨(flushLoop env false d rest).count,
          Event.error (("Failed to create ").data ++ nm ++ (": ").data ++ env.writeErrMsg nm)
            :: (flushLoop env false d rest).events⟩
      else
        ⟨(flushLoop env false d rest).count + 1,
          Event.created nm (adgFilePath d nm) :: (flushLoop env false d rest).events⟩ := rfl

lemma flushLoop_spec (env : Env) (d : List Char) :
    ∀ m : AdgMap,
      (flushLoop env false d m).events =
        m.map (fun kv =>
          if env.writeFails kv.1 then
            Event.error (("Failed to create ").data ++ kv.1 ++ (": ").data ++
              env.writeErrMsg kv.1)
          else Event.created kv.1 (adgFilePath d kv.1)) ∧
      (flushLoop env false d m).count =
        (m.filter (fun kv => !env.writeFails kv.1)).length := by
  intro m
  induction m with
  | nil => exact ⟨rfl, rfl⟩
  | cons kv rest ih =>
    obtain ⟨nm, instr⟩ := kv
    rw [flushLoop_cons]
    by_cases hf : env.writeFails nm
    · have hf2 : (!env.writeFails nm) = false := by simp [hf]
      simp [if_pos hf, List.map_cons, List.filter_cons, hf, hf2, ih.1, ih.2]
    · have hf2 : env.writeFails nm = false := by simpa using hf
      simp [if_neg hf, List.map_cons, List.filter_cons, hf2, ih.1, ih.2]

lemma flushLoop_error_mem (env : Env) (d : List Char) (m : AdgMap) (msg : List Char)
    (hmem : Event.error msg ∈ (flushLoop env false d m).events) :
    ∃ nm, nm ∈ mapKeys m ∧ env.writeFails nm = true ∧
      msg = ("Failed to create ").data ++ nm ++ (": ").data ++ env.writeErrMsg nm := by
  rw [(flushLoop_spec env d m).1] at hmem
  rw [List.mem_map] at hmem
  obtain ⟨kv, hkv, heq⟩ := hmem
  by_cases hf : env.writeFails kv.1
  · rw [if_pos hf] at heq
    refine ⟨kv.1, List.mem_map_of_mem Prod.fst hkv, hf, ?_⟩
    injection heq with h
    exact h.symm
  · rw [if_neg hf] at heq
    exact absurd heq (by simp)

lemma createdName_eq_none (e : Event) (h : isCreatedEvent e = false) :
    createdName e = none := by
  cases e with
  | progressFile c t f => rfl
  | progressFolder c t f => rfl
  | created nm p => simp [isCreatedEvent] at h
  | error m => rfl

lemma flushLoop_createdNames (env : Env) (d : List Char) :
    ∀ m : AdgMap,
      ((flushLoop env false d m).events.filterMap createdName) =
        (m.filter (fun kv => !env.writeFails kv.1)).map Prod.fst := by
  intro m
  induction m with
  | nil => rfl
  | cons kv rest ih =>
    obtain ⟨nm, instr⟩ := kv
    by_cases hf : env.writeFails nm
    · rw [flushLoop_cons, if_pos hf]
      show (Event.error _ :: (flushLoop env false d rest).events).filterMap createdName = _
      rw [List.filterMap_cons, List.filter_cons]
      simp only [hf, Bool.not_true, Bool.false_eq_true, if_false, createdName]
      exact ih
    · rw [flushLoop_cons, if_neg hf]
      show (Event.created nm _ :: (flushLoop env false d rest).events).filterMap createdName = _
      rw [List.filterMap_cons, List.filter_cons]
      simp only [hf, Bool.not_false, if_true, createdName, List.map_cons]
      rw [ih]

lemma run_flat_pos (env : Env) (ft : List Char) (st : ProcState) (p d : List Char)
    (gn : Option (List Char)) (il : Bool)
    (h1 : (getSubdirsContainingValidSamples p (env.rootEntriesOf p) il).length = 0)
    (h2 : 0 < (env.filesUnder p).length) :
    createAdgFromSamplesPath env ft st p d gn il =
      ⟨(flushLoop env false d
          (processGroup ft [] (jsNameOr gn (basenameL p)) (env.filesUnder p)).adgs).count,
        false,
        (processGroup ft [] (jsNameOr gn (basenameL p)) (env.filesUnder p)).adgs,
        (processGroup ft [] (jsNameOr gn (basenameL p)) (env.filesUnder p)).events ++
          (flushLoop env false d
            (processGroup ft [] (jsNameOr gn (basenameL p)) (env.filesUnder p)).adgs).events,
        (processGroup ft [] (jsNameOr gn (basenameL p)) (env.filesUnder p)).calls⟩ := by
  unfold createAdgFromSamplesPath
  dsimp only
  rw [if_pos h1, if_pos h2]

lemma run_flat_zero (env : Env) (ft : List Char) (st : ProcState) (p d : List Char)
    (gn : Option (List Char)) (il : Bool)
    (h1 : (getSubdirsContainingValidSamples p (env.rootEntriesOf p) il).length = 0)
    (h2 : ¬ 0 < (env.filesUnder p).length) :
    createAdgFromSamplesPath env ft st p d gn il =
      ⟨0, false, [],
        (Event.error (("No ").data ++ ft ++ (" samples found in ").data ++ p)) :: [], []⟩ := by
  unfold createAdgFromSamplesPath
  dsimp only
  rw [if_pos h1, if_neg h2]

lemma run_subdirs (env : Env) (ft : List Char) (st : ProcState) (p d : List Char)
    (gn : Option (List Char)) (il : Bool)
    (h1 : ¬ (getSubdirsContainingValidSamples p (env.rootEntriesOf p) il).length = 0) :
    createAdgFromSamplesPath env ft st p d gn il =
      ⟨(flushLoop env false d
          (subdirLoop env ft false (jsNameOr gn (basenameL p))
            (getSubdirsContainingValidSamples p (env.rootEntriesOf p) il).length 0 []
            (getSubdirsContainingValidSamples p (env.rootEntriesOf p) il)).adgs).count,
        false,
        (subdirLoop env ft false (jsNameOr gn (basenameL p))
          (getSubdirsContainingValidSamples p (env.rootEntriesOf p) il).length 0 []
          (getSubdirsContainingValidSamples p (env.rootEntriesOf p) il)).adgs,
        (subdirLoop env ft false (jsNameOr gn (basenameL p))
          (getSubdirsContainingValidSamples p (env.rootEntriesOf p) il).length 0 []
          (getSubdirsContainingValidSamples p (env.rootEntriesOf p) il)).events ++
          (flushLoop env false d
            (subdirLoop env ft false (jsNameOr gn (basenameL p))
              (getSubdirsContainingValidSamples p (env.rootEntriesOf p) il).length 0 []
              (getSubdirsContainingValidSamples p (env.rootEntriesOf p) il)).adgs).events,
        (subdirLoop env ft false (jsNameOr gn (basenameL p))
          (getSubdirsContainingValidSamples p (env.rootEntriesOf p) il).length 0 []
          (getSubdirsContainingValidSamples p (env.rootEntriesOf p) il)).calls⟩ := by
  unfold createAdgFromSamplesPath
  dsimp only
  rw [if_neg h1]

/-! ## Key uniqueness of the accumulation map -/

lemma mapHasKey_iff (m : AdgMap) (k : List Char) :
    mapHasKey m k = true ↔ k ∈ mapKeys m := by
  rw [mapHasKey, List.any_eq_true, mapKeys]
  simp only [List.mem_map, beq_iff_eq]

lemma mapKeys_push (m : AdgMap) (k : List Char) (v : InstrumentRender) :
    mapKeys (mapPush m k v) = if k ∈ mapKeys m then mapKeys m else mapKeys m ++ [k] := by
  rw [mapPush]
  by_cases hk : k ∈ mapKeys m
  · rw [if_pos ((mapHasKey_iff m k).mpr hk), if_pos hk]
    rw [mapKeys, mapKeys, List.map_map]
    apply List.map_congr_left
    intro kv _
    show (if kv.1 == k then (kv.1, kv.2 ++ [v]) else kv).1 = kv.1
    by_cases hkv : kv.1 == k
    · rw [if_pos hkv]
    · rw [if_neg hkv]
  · rw [if_neg (fun h => hk ((mapHasKey_iff m k).mp h)), if_neg hk]
    rw [mapKeys, mapKeys, List.map_append]
    rfl

lemma mapKeys_push_nodup (m : AdgMap) (k : List Char) (v : InstrumentRender)
    (h : (mapKeys m).Nodup) : (mapKeys (mapPush m k v)).Nodup := by
  rw [mapKeys_push]
  by_cases hk : k ∈ mapKeys m
  · rw [if_pos hk]
    exact h
  · rw [if_neg hk]
    rw [List.nodup_append]
    refine ⟨h, List.nodup_singleton k, ?_⟩
    intro a ha hb
    rw [List.mem_singleton] at hb
    exact hk (hb ▸ ha)

lemma processSamples_keys_nodup (ft nm : List Char) (t : Nat) :
    ∀ (samples : List (List Char)) (i : Nat) (adgs : AdgMap),
      (mapKeys adgs).Nodup →
      (mapKeys (processSamples ft false nm t i adgs samples).adgs).Nodup := by
  intro samples
  induction samples with
  | nil => intro i adgs h; exact h
  | cons s rest ih =>
    intro i adgs h
    rw [processSamples_adgs]
    exact ih (i + 1) _ (mapKeys_push_nodup _ _ _ h)

lemma subdirLoop_keys_nodup (env : Env) (ft nm : List Char) (t : Nat) :
    ∀ (subs : List (List Char)) (idx : Nat) (adgs : AdgMap),
      (mapKeys adgs).Nodup →
      (mapKeys (subdirLoop env ft false nm t idx adgs subs).adgs).Nodup := by
  intro subs
  induction subs with
  | nil => intro idx adgs h; exact h
  | cons subdir rest ih =>
    intro idx adgs h
    rw [subdirLoop_cons]
    dsimp only
    by_cases hpos : 0 < ((env.filesUnder subdir).take 104).length
    · rw [if_pos hpos]
      exact ih (idx + 1) _ (processSamples_keys_nodup ft _ _ _ 0 adgs h)
    · rw [if_neg hpos]
      exact ih (idx + 1) _ h

lemma run_keys_nodup (env : Env) (ft : List Char) (st : ProcState) (p d : List Char)
    (gn : Option (List Char)) (il : Bool) :
    (mapKeys (createAdgFromSamplesPath env ft st p d gn il).adgs).Nodup := by
  by_cases h1 : (getSubdirsContainingValidSamples p (env.rootEntriesOf p) il).length = 0
  · by_cases h2 : 0 < (env.filesUnder p).length
    · rw [run_flat_pos env ft st p d gn il h1 h2]
      exact processSamples_keys_nodup ft _ _ _ 0 [] List.Pairwise.nil
    · rw [run_flat_zero env ft st p d gn il h1 h2]
      exact List.Pairwise.nil
  · rw [run_subdirs env ft st p d gn il h1]
    exact subdirLoop_keys_nodup env ft _ _ _ 0 [] List.Pairwise.nil

/-! ## Events of the processing phase -/

lemma processSamples_events_kind (ft nm : List Char) (t : Nat) (samples : List (List Char))
    (i : Nat) (adgs : AdgMap) :
    ∀ e ∈ (processSamples ft false nm t i adgs samples).events,
      isErrorEvent e = false ∧ isCreatedEvent e = false := by
  intro e he
  rw [processSamples_events] at he
  rw [List.mem_map] at he
  obtain ⟨q, _, rfl⟩ := he
  exact ⟨rfl, rfl⟩

lemma subdirLoop_events_kind (env : Env) (ft nm : List Char) (t : Nat) :
    ∀ (subs : List (List Char)) (idx : Nat) (adgs : AdgMap),
      ∀ e ∈ (subdirLoop env ft false nm t idx adgs subs).events,
        isErrorEvent e = false ∧ isCreatedEvent e = false := by
  intro subs
  induction subs with
  | nil =>
    intro idx adgs e he
    simp [subdirLoop] at he
  | cons subdir rest ih =>
    intro idx adgs e he
    rw [subdirLoop_cons] at he
    dsimp only at he
    rw [List.mem_append, List.mem_cons] at he
    rcases he with he | he | he
    · by_cases hpos : 0 < ((env.filesUnder subdir).take 104).length
      · rw [if_pos hpos] at he
        exact processSamples_events_kind ft _ _ _ 0 adgs e he
      · rw [if_neg hpos] at he
        simp at he
    · rw [he]
      exact ⟨rfl, rfl⟩
    · exact ih (idx + 1) _ e he

lemma run_events_decomp (env : Env) (ft : List Char) (st : ProcState) (p d : List Char)
    (gn : Option (List Char)) (il : Bool) :
    ∃ pre, (createAdgFromSamplesPath env ft st p d gn il).events =
        pre ++ (flushLoop env false d
          (createAdgFromSamplesPath env ft st p d gn il).adgs).events ∧
      ∀ e ∈ pre, isCreatedEvent e = false := by
  by_cases h1 : (getSubdirsContainingValidSamples p (env.rootEntriesOf p) il).length = 0
  · by_cases h2 : 0 < (env.filesUnder p).length
    · rw [run_flat_pos env ft st p d gn il h1 h2]
      refine ⟨(processGroup ft [] (jsNameOr gn (basenameL p)) (env.filesUnder p)).events,
        rfl, ?_⟩
      intro e he
      exact (processSamples_events_kind ft _ _ _ 0 [] e he).2
    · rw [run_flat_zero env ft st p d gn il h1 h2]
      exact ⟨(Event.error (("No ").data ++ ft ++ (" samples found in ").data ++ p)) :: [],
        rfl, by intro e he; rw [List.mem_singleton] at he; rw [he]; rfl⟩
  · rw [run_subdirs env ft st p d gn il h1]
    refine ⟨(subdirLoop env ft false (jsNameOr gn (basenameL p))
      (getSubdirsContainingValidSamples p (env.rootEntriesOf p) il).length 0 []
      (getSubdirsContainingValidSamples p (env.rootEntriesOf p) il)).events, rfl, ?_⟩
    intro e he
    exact (subdirLoop_events_kind env ft _ _ _ 0 [] e he).2

lemma run_createdNames (env : Env) (ft : List Char) (st : ProcState) (p d : List Char)
    (gn : Option (List Char)) (il : Bool) :
    ((createAdgFromSamplesPath env ft st p d gn il).events.filterMap createdName) =
      ((createAdgFromSamplesPath env ft st p d gn il).adgs.filter
        (fun kv => !env.writeFails kv.1)).map Prod.fst := by
  obtain ⟨pre, hev, hpre⟩ := run_events_decomp env ft st p d gn il
  rw [hev, List.filterMap_append]
  have hnone : pre.filterMap createdName = [] := by
    rw [List.filterMap_eq_nil_iff]
    exact fun e he => createdName_eq_none e (hpre e he)
  rw [hnone, List.nil_append, flushLoop_createdNames]

/-! ## C5: container name uniqueness and at-most-once writes -/

/-- C5 counterexample: in one multi-folder generation run over the two flat
    folders `/x/Pack` and `/y/Pack` (both named `Pack`), the run emits two
    created events with the same container name — the artifact
    `/out/Pack.adg` is written twice in one run (the second write overwrites
    the first), so container names are not unique per run and the
    at-most-once write property fails for multi-folder runs. -/
theorem container_write_once_counterexample :
    ((processMultipleFolders envPacks (("wav").data) optsPacks ⟨false, []⟩).events.filterMap
      createdName) = (("Pack").data) :: (("Pack").data) :: [] := by
  decide

/-- C5 amended: within one `createAdgFromSamplesPath` run (one top-level
    folder) container names are unique, the artifact for each name is
    written at most once and only after all of that run's samples are known
    (no created event precedes the flush phase, which consumes the final
    accumulated map), and a name collision inside the run silently appends
    to the same accumulated sample list (last-writer-appends) instead of
    producing a second write.  Across folders of a multi-folder run the
    accumulation map is cleared per folder, and a recurring container name
    is written again, overwriting the earlier artifact. -/
theorem container_write_once_amended :
    (∀ (m : AdgMap) (k : List Char) (v : InstrumentRender),
      mapGetD (mapPush m k v) k = mapGetD m k ++ [v] ∧
      mapKeys (mapPush m k v) = if k ∈ mapKeys m then mapKeys m else mapKeys m ++ [k]) ∧
    (∀ (env : Env) (ft : List Char) (st : ProcState) (p d : List Char)
        (gn : Option (List Char)) (il : Bool),
      (mapKeys (createAdgFromSamplesPath env ft st p d gn il).adgs).Nodup ∧
      ((createAdgFromSamplesPath env ft st p d gn il).events.filterMap createdName).Nodup ∧
      ((createAdgFromSamplesPath env ft st p d gn il).events.filterMap createdName) =
        ((createAdgFromSamplesPath env ft st p d gn il).adgs.filter
          (fun kv => !env.writeFails kv.1)).map Prod.fst ∧
      ∃ pre, (createAdgFromSamplesPath env ft st p d gn il).events =
          pre ++ (flushLoop env false d
            (createAdgFromSamplesPath env ft st p d gn il).adgs).events ∧
        ∀ e ∈ pre, isCreatedEvent e = false) := by
  refine ⟨fun m k v => ⟨mapGetD_push_same m k v, mapKeys_push m k v⟩, ?_⟩
  intro env ft st p d gn il
  have hkeys := run_keys_nodup env ft st p d gn il
  have hnames := run_createdNames env ft st p d gn il
  refine ⟨hkeys, ?_, hnames, run_events_decomp env ft st p d gn il⟩
  rw [hnames]
  exact List.Nodup.sublist ((List.filter_sublist _).map Prod.fst) hkeys

/-- Witness for the amended C5: a concrete push appends, and the created
    names of a concrete run are without duplicate. -/
theorem container_write_once_amended_witness :
    (mapGetD (mapPush [] (("K").data)
        (createInstrumentXml (("wav").data) (("/a/k.wav").data) 104)) (("K").data) =
      mapGetD [] (("K").data) ++
        [createInstrumentXml (("wav").data) (("/a/k.wav").data) 104]) ∧
    ((createAdgFromSamplesPath envFlat (("wav").data) ⟨false, []⟩ (("/flat").data)
        (("/out").data) none false).events.filterMap createdName).Nodup :=
  ⟨(container_write_once_amended.1 [] (("K").data)
      (createInstrumentXml (("wav").data) (("/a/k.wav").data) 104)).1,
    (container_write_once_amended.2 envFlat (("wav").data) ⟨false, []⟩ (("/flat").data)
      (("/out").data) none false).2.1⟩

/-! ## C7: error reporting and continuation -/

/-- C7: every failure is reported via the error callback and processing
    continues at the narrowest scope: a flat folder with zero matching files
    yields exactly the error event `No <ext> samples found in <path>` and a
    zero count; in the multi-group case every error event is a flush failure
    naming its container (zero-sample groups are skipped silently); the flush
    loop visits every accumulated container, emitting a created event or an
    error event naming the container, so one failure does not prevent the
    remaining containers; and an exception of one folder is caught, reported
    as `Error processing <folder>: <err>`, and the remaining folders are
    still processed. -/
theorem error_reporting_spec :
    (∀ (env : Env) (ft : List Char) (st : ProcState) (p d : List Char)
        (gn : Option (List Char)) (il : Bool),
      (getSubdirsContainingValidSamples p (env.rootEntriesOf p) il).length = 0 →
      env.filesUnder p = [] →
      (createAdgFromSamplesPath env ft st p d gn il).events =
        (Event.error (("No ").data ++ ft ++ (" samples found in ").data ++ p)) :: [] ∧
      (createAdgFromSamplesPath env ft st p d gn il).count = 0) ∧
    (∀ (env : Env) (ft : List Char) (st : ProcState) (p d : List Char)
        (gn : Option (List Char)) (il : Bool) (msg : List Char),
      ¬ (getSubdirsContainingValidSamples p (env.rootEntriesOf p) il).length = 0 →
      Event.error msg ∈ (createAdgFromSamplesPath env ft st p d gn il).events →
      ∃ nm, nm ∈ mapKeys (createAdgFromSamplesPath env ft st p d gn il).adgs ∧
        env.writeFails nm = true ∧
        msg = ("Failed to create ").data ++ nm ++ (": ").data ++ env.writeErrMsg nm) ∧
    (∀ (env : Env) (ft nm : List Char) (t idx : Nat) (adgs : AdgMap)
        (subdir : List Char) (rest : List (List Char)),
      env.filesUnder subdir = [] →
      subdirLoop env ft false nm t idx adgs (subdir :: rest) =
        ⟨(subdirLoop env ft false nm t (idx + 1) adgs rest).adgs,
          Event.progressFolder (idx + 1) t (basenameL subdir) ::
            (subdirLoop env ft false nm t (idx + 1) adgs rest).events,
          (subdirLoop env ft false nm t (idx + 1) adgs rest).calls⟩) ∧
    (∀ (env : Env) (d : List Char) (m : AdgMap),
      (flushLoop env false d m).events =
        m.map (fun kv =>
          if env.writeFails kv.1 then
            Event.error (("Failed to create ").data ++ kv.1 ++ (": ").data ++
              env.writeErrMsg kv.1)
          else Event.created kv.1 (adgFilePath d kv.1)) ∧
      (flushLoop env false d m).count =
        (m.filter (fun kv => !env.writeFails kv.1)).length) ∧
    (∀ (env : Env) (ft : List Char) (opts : GenOptions) (cadgs : AdgMap)
        (folder : List Char) (rest : List (List Char)) (e : List Char),
      env.folderThrows folder = some e →
      foldersLoop env ft opts ⟨false, cadgs⟩ (folder :: rest) =
        ⟨(foldersLoop env ft opts ⟨false, cadgs⟩ rest).total,
          (foldersLoop env ft opts ⟨false, cadgs⟩ rest).state,
          Event.error (("Error processing ").data ++ folder ++ (": ").data ++ e) ::
            (foldersLoop env ft opts ⟨false, cadgs⟩ rest).events,
          (foldersLoop env ft opts ⟨false, cadgs⟩ rest).calls⟩) := by
  refine ⟨?_, ?_, ?_, flushLoop_spec, ?_⟩
  · intro env ft st p d gn il h1 h2
    rw [run_flat_zero env ft st p d gn il h1 (by rw [h2]; simp)]
    exact ⟨rfl, rfl⟩
  · intro env ft st p d gn il msg h1 hmem
    rw [run_subdirs env ft st p d gn il h1] at hmem ⊢
    dsimp only at hmem ⊢
    rw [List.mem_append] at hmem
    rcases hmem with hmem | hmem
    · have := (subdirLoop_events_kind env ft _ _ _ 0 [] _ hmem).1
      simp [isErrorEvent] at this
    · exact flushLoop_error_mem env d _ msg hmem
  · intro env ft nm t idx adgs subdir rest h
    rw [subdirLoop_cons]
    rw [h]
    rfl
  · intro env ft opts cadgs folder rest e h
    show (match env.folderThrows folder with
      | some e2 =>
        let next := foldersLoop env ft opts ⟨false, cadgs⟩ rest
        (⟨next.total, next.state,
          Event.error (("Error processing ").data ++ folder ++ (": ").data ++ e2)
            :: next.events, next.calls⟩ : MultiOut)
      | none =>
        let run := createAdgFromSamplesPath env ft ⟨false, cadgs⟩ folder
          opts.outputDirectory (opts.customNames folder) opts.includeLoops
        let st2 : ProcState := ⟨run.cancelled, run.adgs⟩
        let next := foldersLoop env ft opts st2 rest
        (⟨run.count + next.total, next.state, run.events ++ next.events,
          run.calls ++ next.calls⟩ : MultiOut)) = _
    rw [h]

/-- Witness for C7: the flat no-samples error on a concrete empty folder. -/
theorem error_reporting_spec_witness :
    (createAdgFromSamplesPath envFlat (("wav").data) ⟨false, []⟩ (("/empty").data)
        (("/out").data) none false).events =
      (Event.error (("No ").data ++ ("wav").data ++ (" samples found in ").data ++
        ("/empty").data)) :: [] ∧
    (createAdgFromSamplesPath envFlat (("wav").data) ⟨false, []⟩ (("/empty").data)
        (("/out").data) none false).count = 0 :=
  error_reporting_spec.1 envFlat (("wav").data) ⟨false, []⟩ (("/empty").data) (("/out").data)
    none false (by decide) (by decide)

end ADG
